import Mathlib

/-!
Shallow embedding of the deca-delay library (src/delay.ts, src/random.ts,
src/until.ts, src/errors.ts) and proofs about its published specification.

JavaScript numbers are modelled as NaN, plus/minus infinity, or an exact
rational; JavaScript values carry a typeof tag; a thrown error is the
`.error` branch of an `Except`.  The asynchronous polling loop of `until`
is modelled as a fueled recursion over an oracle giving, for every check
index, the settled outcome of the predicate and the wall-clock reading
`Date.now()` observed right after that outcome settles; the run also emits
an event trace (predicate invocation, outcome settlement, timer arming,
timer firing, promise settlement) from which the temporal claims are read.
-/

namespace DecaDelay

/-- Equality of `Except` results is decidable when both sides are. -/
instance exceptDecEq {ε α : Type} [DecidableEq ε] [DecidableEq α] :
    DecidableEq (Except ε α) := fun a b =>
  match a, b with
  | .ok x, .ok y =>
      if h : x = y then .isTrue (by rw [h]) else .isFalse (by simp [h])
  | .error x, .error y =>
      if h : x = y then .isTrue (by rw [h]) else .isFalse (by simp [h])
  | .ok _, .error _ => .isFalse (by simp)
  | .error _, .ok _ => .isFalse (by simp)

/-- A JavaScript number: NaN, an infinity, or a finite value (modelled as an
exact rational). -/
inductive JSNum where
  | nan
  | posInf
  | negInf
  | fin (q : ℚ)
deriving DecidableEq

/-- JavaScript comparison `a < b` on numbers: false whenever either side is
NaN. -/
def JSNum.lt : JSNum → JSNum → Bool
  | .nan, _ => false
  | _, .nan => false
  | .posInf, _ => false
  | .negInf, .negInf => false
  | .negInf, _ => true
  | _, .negInf => false
  | .fin _, .posInf => true
  | .fin a, .fin b => decide (a < b)

/-- JavaScript comparison `a >= b` on numbers: false whenever either side is
NaN. -/
def JSNum.ge : JSNum → JSNum → Bool
  | .nan, _ => false
  | _, .nan => false
  | .posInf, _ => true
  | .negInf, .negInf => true
  | .negInf, _ => false
  | _, .posInf => false
  | _, .negInf => true
  | .fin a, .fin b => decide (b ≤ a)

/-- JavaScript comparison `a > b` on numbers. -/
def JSNum.gt (a b : JSNum) : Bool := JSNum.lt b a

/-- JavaScript unary negation on numbers. -/
def JSNum.neg : JSNum → JSNum
  | .nan => .nan
  | .posInf => .negInf
  | .negInf => .posInf
  | .fin q => .fin (-q)

/-- JavaScript addition on numbers (`Infinity + -Infinity` is NaN).  The
finite case is written in explicitly computable `mkRat` form; the lemma
`JSNum.add_fin` identifies it with rational addition. -/
def JSNum.add : JSNum → JSNum → JSNum
  | .nan, _ => .nan
  | _, .nan => .nan
  | .posInf, .negInf => .nan
  | .negInf, .posInf => .nan
  | .posInf, _ => .posInf
  | _, .posInf => .posInf
  | .negInf, _ => .negInf
  | _, .negInf => .negInf
  | .fin a, .fin b => .fin (mkRat (a.num * b.den + b.num * a.den) (a.den * b.den))

/-- JavaScript subtraction on numbers. -/
def JSNum.sub (a b : JSNum) : JSNum := a.add b.neg

/-- JavaScript multiplication on numbers (`0 * Infinity` is NaN). -/
def JSNum.mul : JSNum → JSNum → JSNum
  | .nan, _ => .nan
  | _, .nan => .nan
  | .posInf, .posInf => .posInf
  | .posInf, .negInf => .negInf
  | .negInf, .posInf => .negInf
  | .negInf, .negInf => .posInf
  | .posInf, .fin q => if q = 0 then .nan else if 0 < q then .posInf else .negInf
  | .fin q, .posInf => if q = 0 then .nan else if 0 < q then .posInf else .negInf
  | .negInf, .fin q => if q = 0 then .nan else if 0 < q then .negInf else .posInf
  | .fin q, .negInf => if q = 0 then .nan else if 0 < q then .negInf else .posInf
  | .fin a, .fin b => .fin (mkRat (a.num * b.num) (a.den * b.den))

/-- JavaScript `Math.floor`.  The finite case is written with the
computable `Rat.floor`; the lemma `JSNum.floor_fin` identifies it with the
mathematical floor. -/
def JSNum.floor : JSNum → JSNum
  | .nan => .nan
  | .posInf => .posInf
  | .negInf => .negInf
  | .fin q => .fin (q.floor : ℚ)

/-- The finite case of JavaScript addition is rational addition. -/
theorem JSNum.add_fin (a b : ℚ) : (JSNum.fin a).add (.fin b) = .fin (a + b) := by
  simp only [JSNum.add, Rat.add_def']

/-- The finite case of JavaScript multiplication is rational
multiplication. -/
theorem JSNum.mul_fin (a b : ℚ) : (JSNum.fin a).mul (.fin b) = .fin (a * b) := by
  simp only [JSNum.mul, Rat.mul_def, Rat.normalize_eq_mkRat]

/-- The finite case of JavaScript subtraction is rational subtraction. -/
theorem JSNum.sub_fin (a b : ℚ) : (JSNum.fin a).sub (.fin b) = .fin (a - b) := by
  simp only [JSNum.sub, JSNum.neg, JSNum.add_fin, sub_eq_add_neg]

/-- The finite case of `Math.floor` is the mathematical floor. -/
theorem JSNum.floor_fin (q : ℚ) : (JSNum.fin q).floor = .fin ((⌊q⌋ : ℤ) : ℚ) := by
  have h : (⌊q⌋ : ℤ) = q.floor := by
    rw [Rat.floor_def, Rat.floor_def']
  simp only [JSNum.floor, h]

/-- Rendering of a JavaScript number inside a template literal; exact for
NaN, the infinities and integer values (the only values the library ever
interpolates into messages in the verified claims). -/
def JSNum.render : JSNum → String
  | .nan => "NaN"
  | .posInf => "Infinity"
  | .negInf => "-Infinity"
  | .fin q => if q.den = 1 then toString q.num else toString q

/-- A JavaScript value, as far as the library's `typeof` tests and numeric
uses distinguish them. -/
inductive JSVal where
  | num (x : JSNum)
  | str (s : String)
  | boolean (b : Bool)
  | nullVal
  | undef
  | func
  | obj
deriving DecidableEq

/-- `typeof v === 'number'` (note `typeof null === 'object'`). -/
def isNumberType : JSVal → Bool
  | .num _ => true
  | _ => false

/-- The check `typeof v === 'number' && !(v < 0)` shared, negated, by the
guards of delay.ts and until.ts (`typeof x !== 'number' || x < 0`). -/
def isNonNegNumber : JSVal → Bool
  | .num x => !(x.lt (.fin 0))
  | _ => false

/-- An error value as constructed by errors.ts or by bare `new Error(...)`
calls: the constructor class, its payload and its message. -/
inductive JSError where
  | error (msg : String)
  | timeoutError (timeout : JSNum) (msg : String)
  | validationError (msg : String)
deriving DecidableEq

/-- The `name` property set by each error class constructor. -/
def JSError.name : JSError → String
  | .error _ => "Error"
  | .timeoutError _ _ => "TimeoutError"
  | .validationError _ => "ValidationError"

/-- The `TimeoutError` constructor of errors.ts: the message defaults to
`Condition not met within {timeout}ms timeout`. -/
def TimeoutError.make (timeout : JSNum) (message : Option String) : JSError :=
  .timeoutError timeout
    (message.getD ("Condition not met within " ++ timeout.render ++ "ms timeout"))

/-- A successfully armed single-shot timer holding the requested duration;
the promise behind it fulfills with no value when the timer fires. -/
structure ArmedTimer where
  ms : JSNum
deriving DecidableEq

/-- delay.ts: `delay(ms)` throws `Error` when
`typeof ms !== 'number' || ms < 0`, else arms `setTimeout(resolve, ms)`. -/
def delay (ms : JSVal) : Except JSError ArmedTimer :=
  match ms with
  | .num x =>
      if x.lt (.fin 0) then .error (.error "Delay must be a non-negative number")
      else .ok ⟨x⟩
  | _ => .error (.error "Delay must be a non-negative number")

/-- random.ts: `random(min, max)` validates types, then non-negativity, then
ordering, then computes `Math.floor(r * (max - min + 1)) + min` for a draw
`r` of `Math.random()` and delegates to `delay`.  The draw is passed in
explicitly. -/
def random (r : ℚ) (min max : JSVal) : Except JSError ArmedTimer :=
  match min, max with
  | .num a, .num b =>
      if a.lt (.fin 0) || b.lt (.fin 0) then
        .error (.error "Both min and max must be non-negative numbers")
      else if a.gt b then
        .error (.error "min must be less than or equal to max")
      else
        delay (.num ((((JSNum.fin r).mul ((b.sub a).add (.fin 1))).floor).add a))
  | _, _ => .error (.error "Both min and max must be numbers")

/-- The settled outcome of one predicate invocation inside `until`: either
the (possibly awaited) returned value with its truthiness, or an error the
predicate threw synchronously or its promise rejected with. -/
inductive CondOutcome where
  | ret (truthy : Bool)
  | err (e : JSError)
deriving DecidableEq

/-- Observable events of one `until` run: predicate invocation at check
index `i`, settlement of that check's outcome, `setTimeout(check, interval)`
arming a single-shot timer, that timer firing, and the result promise
settling. -/
inductive Event where
  | invoke (i : ℕ)
  | settle (i : ℕ) (o : CondOutcome)
  | armTimer (i : ℕ) (interval : JSNum)
  | timerFire (i : ℕ)
  | promiseResolve
  | promiseReject (e : JSError)
deriving DecidableEq

/-- State of the result promise of `until` at the end of an observed run:
fulfilled, rejected with an error, or still pending (the observation fuel
ran out before the run settled). -/
inductive PollResult where
  | resolved
  | rejected (e : JSError)
  | pending
deriving DecidableEq

/-- The recursive `check` loop of until.ts, run from check index `i` with
observation fuel bounding how many checks are observed.  `cond k` is the
settled outcome of the k-th predicate invocation and `now k` the value of
`Date.now()` read right after that outcome settles as falsy.  Returns the
promise state together with the emitted event trace. -/
def checkRun (cond : ℕ → CondOutcome) (now : ℕ → JSNum) (startTime : JSNum)
    (interval timeout : JSNum) : ℕ → ℕ → PollResult × List Event
  | 0, _ => (.pending, [])
  | fuel + 1, i =>
    match cond i with
    | .err e => (.rejected e, [.invoke i, .settle i (.err e), .promiseReject e])
    | .ret true => (.resolved, [.invoke i, .settle i (.ret true), .promiseResolve])
    | .ret false =>
      if ((now i).sub startTime).ge timeout then
        (.rejected (TimeoutError.make timeout none),
         [.invoke i, .settle i (.ret false),
          .promiseReject (TimeoutError.make timeout none)])
      else
        let rest := checkRun cond now startTime interval timeout fuel (i + 1)
        (rest.1,
         [.invoke i, .settle i (.ret false), .armTimer i interval, .timerFire i]
           ++ rest.2)

/-- The options object of until.ts; an absent (or nullish) field is `none`,
so `options.interval ?? DEFAULT_INTERVAL` becomes `getD`. -/
structure UntilOptions where
  interval : Option JSVal
  timeout : Option JSVal
deriving DecidableEq

/-- Default polling interval of until.ts (200 ms). -/
def DEFAULT_INTERVAL : JSVal := .num (.fin 200)

/-- Default timeout of until.ts (30000 ms). -/
def DEFAULT_TIMEOUT : JSVal := .num (.fin 30000)

/-- The guard `typeof d !== 'number' || d < 0` applied by until.ts to the
resolved interval and timeout: `none` means the guard throws, `some x`
yields the validated numeric value. -/
def resolveDuration (v : JSVal) : Option JSNum :=
  match v with
  | .num x => if x.lt (.fin 0) then none else some x
  | _ => none

/-- until.ts: validate the condition and the resolved options synchronously
(a `.error` result is a synchronous throw, before any timer is armed and
before any predicate invocation), then run the polling loop.
`condIsFunction` is `typeof condition === 'function'`; `startTime` is the
`Date.now()` reading taken once at entry of the promise executor. -/
def «until» (condIsFunction : Bool) (options : UntilOptions)
    (cond : ℕ → CondOutcome) (now : ℕ → JSNum) (startTime : JSNum)
    (fuel : ℕ) : Except JSError (PollResult × List Event) :=
  if !condIsFunction then .error (.error "Condition must be a function")
  else
    match resolveDuration (options.interval.getD DEFAULT_INTERVAL) with
    | none => .error (.error "Interval must be a non-negative number")
    | some iv =>
      match resolveDuration (options.timeout.getD DEFAULT_TIMEOUT) with
      | none => .error (.error "Timeout must be a non-negative number")
      | some tv => .ok (checkRun cond now startTime iv tv fuel 0)

/-- Number of predicate invocations recorded in a trace. -/
def countInvokes (tr : List Event) : ℕ :=
  tr.countP fun e => match e with | .invoke _ => true | _ => false

/-- Whether a trace records any timer being armed. -/
def hasArmTimer (tr : List Event) : Bool :=
  tr.any fun e => match e with | .armTimer _ _ => true | _ => false

/-- Whether an event settles the result promise. -/
def isPromiseSettlement : Event → Bool
  | .promiseResolve => true
  | .promiseReject _ => true
  | _ => false

/-- Contribution of an event to the number of in-flight predicate
evaluations (invocation opens one, settlement closes it). -/
def inFlightDelta : Event → ℤ
  | .invoke _ => 1
  | .settle _ _ => -1
  | _ => 0

/-- Contribution of an event to the number of pending timers (arming adds
one, firing removes it). -/
def timerDelta : Event → ℤ
  | .armTimer _ _ => 1
  | .timerFire _ => -1
  | _ => 0

/-- Every prefix of the trace keeps the running sum of `f` between 0 and
1: at every moment at most one unit of the measured resource exists. -/
def prefixBounded (f : Event → ℤ) (tr : List Event) : Prop :=
  ∀ n : ℕ, 0 ≤ ((tr.take n).map f).sum ∧ ((tr.take n).map f).sum ≤ 1

/-- Modelled from the spec (section 4.1 and section 6): the predicate
`ms is a finite number ≥ 0` that, per the spec, characterises the inputs
`wait` accepts. -/
def specFiniteNonNeg : JSVal → Bool
  | .num (.fin q) => decide (0 ≤ q)
  | _ => false

section CheckRunLemmas

variable (cond : ℕ → CondOutcome) (now : ℕ → JSNum)
variable (startTime interval timeout : JSNum)

/-- Unfolding: a check whose predicate outcome is an error rejects with that
error at once. -/
theorem checkRun_err {i : ℕ} {e : JSError} (fuel : ℕ) (h : cond i = .err e) :
    checkRun cond now startTime interval timeout (fuel + 1) i =
      (.rejected e, [.invoke i, .settle i (.err e), .promiseReject e]) := by
  simp [checkRun, h]

/-- Unfolding: a check whose predicate outcome is truthy resolves at once. -/
theorem checkRun_true {i : ℕ} (fuel : ℕ) (h : cond i = .ret true) :
    checkRun cond now startTime interval timeout (fuel + 1) i =
      (.resolved, [.invoke i, .settle i (.ret true), .promiseResolve]) := by
  simp [checkRun, h]

/-- Unfolding: a falsy check with the elapsed time at or past the timeout
rejects with the default-message TimeoutError. -/
theorem checkRun_timeout {i : ℕ} (fuel : ℕ) (h : cond i = .ret false)
    (hge : ((now i).sub startTime).ge timeout = true) :
    checkRun cond now startTime interval timeout (fuel + 1) i =
      (.rejected (TimeoutError.make timeout none),
       [.invoke i, .settle i (.ret false),
        .promiseReject (TimeoutError.make timeout none)]) := by
  simp [checkRun, h, hge]

/-- Unfolding: a falsy check before the timeout arms one timer and, when it
fires, runs the next check. -/
theorem checkRun_continue {i : ℕ} (fuel : ℕ) (h : cond i = .ret false)
    (hge : ((now i).sub startTime).ge timeout = false) :
    checkRun cond now startTime interval timeout (fuel + 1) i =
      ((checkRun cond now startTime interval timeout fuel (i + 1)).1,
       [.invoke i, .settle i (.ret false), .armTimer i interval, .timerFire i]
         ++ (checkRun cond now startTime interval timeout fuel (i + 1)).2) := by
  simp [checkRun, h, hge]

/-- Any settled run of the check loop ends in one of exactly three ways:
resolved after a truthy check, rejected with the default TimeoutError after
a falsy check at or past the timeout, or rejected with an error the
predicate itself produced. -/
theorem checkRun_cases (fuel : ℕ) :
    ∀ i : ℕ,
      (checkRun cond now startTime interval timeout fuel i).1 ≠ .pending →
      ((checkRun cond now startTime interval timeout fuel i).1 = .resolved ∧
        ∃ k, cond k = .ret true) ∨
      ((checkRun cond now startTime interval timeout fuel i).1 =
          .rejected (TimeoutError.make timeout none) ∧
        ∃ k, cond k = .ret false ∧ ((now k).sub startTime).ge timeout = true) ∨
      (∃ k e, cond k = .err e ∧
        (checkRun cond now startTime interval timeout fuel i).1 = .rejected e) := by
  induction fuel with
  | zero => intro i h; exact absurd rfl h
  | succ fuel ih =>
    intro i h
    rcases hc : cond i with b | e
    · cases b with
      | true =>
        left
        rw [checkRun_true cond now startTime interval timeout fuel hc]
        exact ⟨rfl, i, hc⟩
      | false =>
        rcases hge : ((now i).sub startTime).ge timeout with hf | ht
        · rw [checkRun_continue cond now startTime interval timeout fuel hc hge]
          rw [checkRun_continue cond now startTime interval timeout fuel hc hge] at h
          exact ih (i + 1) h
        · right; left
          rw [checkRun_timeout cond now startTime interval timeout fuel hc hge]
          exact ⟨rfl, i, hc, hge⟩
    · right; right
      refine ⟨i, e, hc, ?_⟩
      rw [checkRun_err cond now startTime interval timeout fuel hc]

/-- If every check before index `k` settles falsy strictly before the
timeout, the loop reaches check `k`; when that check errors, the loop
rejects with exactly that error. -/
theorem checkRun_err_reach (fuel : ℕ) :
    ∀ (i k : ℕ) (e : JSError), i ≤ k → k - i < fuel →
      (∀ j, i ≤ j → j < k →
        cond j = .ret false ∧ ((now j).sub startTime).ge timeout = false) →
      cond k = .err e →
      (checkRun cond now startTime interval timeout fuel i).1 = .rejected e := by
  induction fuel with
  | zero => intro i k e _ hf _ _; exact absurd hf (by omega)
  | succ fuel ih =>
    intro i k e hik hf hfalse hk
    rcases Nat.eq_or_lt_of_le hik with heq | hlt
    · subst heq
      rw [checkRun_err cond now startTime interval timeout fuel hk]
    · obtain ⟨hcf, hcge⟩ := hfalse i (le_refl i) hlt
      rw [checkRun_continue cond now startTime interval timeout fuel hcf hcge]
      exact ih (i + 1) k e hlt (by omega)
        (fun j hj1 hj2 => hfalse j (by omega) hj2) hk

/-- Any settled run's trace is a settlement-free prefix followed by exactly
one promise-settlement event matching the result, and that settlement is
the last event of the trace. -/
theorem checkRun_settle_last (fuel : ℕ) :
    ∀ i : ℕ,
      (checkRun cond now startTime interval timeout fuel i).1 ≠ .pending →
      ∃ tr' ev,
        (checkRun cond now startTime interval timeout fuel i).2 = tr' ++ [ev] ∧
        isPromiseSettlement ev = true ∧
        (∀ e ∈ tr', isPromiseSettlement e = false) ∧
        (((checkRun cond now startTime interval timeout fuel i).1 = .resolved ∧
            ev = .promiseResolve) ∨
          ∃ er, (checkRun cond now startTime interval timeout fuel i).1 =
              .rejected er ∧ ev = .promiseReject er) := by
  induction fuel with
  | zero => intro i h; exact absurd rfl h
  | succ fuel ih =>
    intro i h
    rcases hc : cond i with b | e
    · cases b with
      | true =>
        rw [checkRun_true cond now startTime interval timeout fuel hc]
        refine ⟨[.invoke i, .settle i (.ret true)], .promiseResolve, rfl, rfl, ?_, ?_⟩
        · intro e he
          fin_cases he <;> rfl
        · exact Or.inl ⟨rfl, rfl⟩
      | false =>
        rcases hge : ((now i).sub startTime).ge timeout with hf | ht
        · rw [checkRun_continue cond now startTime interval timeout fuel hc hge]
          rw [checkRun_continue cond now startTime interval timeout fuel hc hge] at h
          obtain ⟨tr', ev, htr, hev, hfree, hmatch⟩ := ih (i + 1) h
          refine ⟨[.invoke i, .settle i (.ret false), .armTimer i interval,
              .timerFire i] ++ tr', ev, by rw [htr, List.append_assoc], hev, ?_, hmatch⟩
          intro e he
          rcases List.mem_append.1 he with h4 | htl
          · fin_cases h4 <;> rfl
          · exact hfree e htl
        · rw [checkRun_timeout cond now startTime interval timeout fuel hc hge]
          refine ⟨[.invoke i, .settle i (.ret false)],
            .promiseReject (TimeoutError.make timeout none), rfl, rfl, ?_, ?_⟩
          · intro e he
            fin_cases he <;> rfl
          · exact Or.inr ⟨TimeoutError.make timeout none, rfl, rfl⟩
    · rw [checkRun_err cond now startTime interval timeout fuel hc]
      refine ⟨[.invoke i, .settle i (.err e)], .promiseReject e, rfl, rfl, ?_, ?_⟩
      · intro x hx
        fin_cases hx <;> rfl
      · exact Or.inr ⟨e, rfl, rfl⟩

end CheckRunLemmas

/-- A block whose running sums stay in range, and which balances out to
zero, can be prepended to any range-respecting trace. -/
theorem prefixBounded_append (f : Event → ℤ) (b rest : List Event)
    (hb : prefixBounded f b) (hb0 : (b.map f).sum = 0)
    (hr : prefixBounded f rest) : prefixBounded f (b ++ rest) := by
  intro n
  rw [List.take_append_eq_append_take, List.map_append, List.sum_append]
  rcases le_or_lt b.length n with h | h
  · rw [List.take_of_length_le h, hb0, zero_add]
    exact hr (n - b.length)
  · have : n - b.length = 0 := by omega
    rw [this, List.take_zero, List.map_nil, List.sum_nil, add_zero]
    exact hb n

/-- Running sums of `f` over a three-event terminal block stay in `[0, 1]`
when the first two events cancel and the third contributes nothing. -/
theorem prefixBounded_three (f : Event → ℤ) (a b c : Event)
    (ha0 : 0 ≤ f a) (ha1 : f a ≤ 1) (hab : f a + f b = 0) (hc : f c = 0) :
    prefixBounded f [a, b, c] := by
  intro n
  match n with
  | 0 => simp
  | 1 =>
    simp only [List.take, List.map, List.sum_cons, List.sum_nil]
    constructor <;> omega
  | 2 =>
    simp only [List.take, List.map, List.sum_cons, List.sum_nil]
    constructor <;> omega
  | (n + 3) =>
    rw [List.take_of_length_le (by simp)]
    simp only [List.map, List.sum_cons, List.sum_nil]
    constructor <;> omega

/-- Running sums of `f` over the four-event continue block stay in `[0, 1]`
and cancel overall when invocation/settlement and arming/firing pair up. -/
theorem prefixBounded_four (f : Event → ℤ) (a b c d : Event)
    (ha0 : 0 ≤ f a) (ha1 : f a ≤ 1) (hab : f a + f b = 0)
    (hc0 : 0 ≤ f c) (hc1 : f c ≤ 1) (hcd : f c + f d = 0) :
    prefixBounded f [a, b, c, d] ∧ ([a, b, c, d].map f).sum = 0 := by
  constructor
  · intro n
    match n with
    | 0 => simp
    | 1 =>
      simp only [List.take, List.map, List.sum_cons, List.sum_nil]
      constructor <;> omega
    | 2 =>
      simp only [List.take, List.map, List.sum_cons, List.sum_nil]
      constructor <;> omega
    | 3 =>
      simp only [List.take, List.map, List.sum_cons, List.sum_nil]
      constructor <;> omega
    | (n + 4) =>
      rw [List.take_of_length_le (by simp)]
      simp only [List.map, List.sum_cons, List.sum_nil]
      constructor <;> omega
  · simp only [List.map, List.sum_cons, List.sum_nil]
    omega

section TraceBounds

variable (cond : ℕ → CondOutcome) (now : ℕ → JSNum)
variable (startTime interval timeout : JSNum)

/-- Generic single-resource bound over every trace the check loop can
produce: any `f` that pairs invocation with settlement and timer arming
with timer firing, and ignores promise settlement, keeps its running sum
between 0 and 1 over every prefix of the trace. -/
theorem checkRun_prefixBounded (f : Event → ℤ)
    (hinv0 : ∀ i, 0 ≤ f (.invoke i)) (hinv1 : ∀ i, f (.invoke i) ≤ 1)
    (hset : ∀ i o, f (.invoke i) + f (.settle i o) = 0)
    (harm0 : ∀ i, 0 ≤ f (.armTimer i interval))
    (harm1 : ∀ i, f (.armTimer i interval) ≤ 1)
    (hfire : ∀ i, f (.armTimer i interval) + f (.timerFire i) = 0)
    (hres : f .promiseResolve = 0) (hrej : ∀ e, f (.promiseReject e) = 0)
    (fuel : ℕ) :
    ∀ i : ℕ,
      prefixBounded f (checkRun cond now startTime interval timeout fuel i).2 := by
  induction fuel with
  | zero => intro i n; simp [checkRun]
  | succ fuel ih =>
    intro i
    rcases hc : cond i with b | e
    · cases b with
      | true =>
        rw [checkRun_true cond now startTime interval timeout fuel hc]
        exact prefixBounded_three f _ _ _ (hinv0 i) (hinv1 i)
          (hset i (.ret true)) hres
      | false =>
        rcases hge : ((now i).sub startTime).ge timeout with hf | ht
        · rw [checkRun_continue cond now startTime interval timeout fuel hc hge]
          obtain ⟨hb, hb0⟩ := prefixBounded_four f (.invoke i)
            (.settle i (.ret false)) (.armTimer i interval) (.timerFire i)
            (hinv0 i) (hinv1 i) (hset i (.ret false)) (harm0 i) (harm1 i)
            (hfire i)
          exact prefixBounded_append f _ _ hb hb0 (ih (i + 1))
        · rw [checkRun_timeout cond now startTime interval timeout fuel hc hge]
          exact prefixBounded_three f _ _ _ (hinv0 i) (hinv1 i)
            (hset i (.ret false)) (hrej _)
    · rw [checkRun_err cond now startTime interval timeout fuel hc]
      exact prefixBounded_three f _ _ _ (hinv0 i) (hinv1 i)
        (hset i (.err e)) (hrej e)

end TraceBounds

/-- C1: for every predicate and options passing validation, a settled
`until` run either fulfills with no value after the predicate reported
true, or fails with a TimeoutError carrying the configured timeout and the
message `Condition not met within {timeout}ms timeout` after a falsy check
observed elapsed time at or past the timeout (predicate errors excluded,
as the claim describes the no-error behaviour). -/
theorem until_fulfills_or_times_out (options : UntilOptions)
    (cond : ℕ → CondOutcome) (now : ℕ → JSNum) (startTime : JSNum)
    (fuel : ℕ) (iv tv : JSNum) (res : PollResult) (tr : List Event)
    (hiv : resolveDuration (options.interval.getD DEFAULT_INTERVAL) = some iv)
    (htv : resolveDuration (options.timeout.getD DEFAULT_TIMEOUT) = some tv)
    (hnoerr : ∀ k e, cond k ≠ .err e)
    (hrun : «until» true options cond now startTime fuel = .ok (res, tr))
    (hsettled : res ≠ .pending) :
    (res = .resolved ∧ ∃ k, cond k = .ret true) ∨
    (res = .rejected (.timeoutError tv
        ("Condition not met within " ++ tv.render ++ "ms timeout")) ∧
      ∃ k, cond k = .ret false ∧ ((now k).sub startTime).ge tv = true) := by
  have h0 : «until» true options cond now startTime fuel =
      .ok (checkRun cond now startTime iv tv fuel 0) := by
    simp [«until», hiv, htv]
  rw [h0] at hrun
  have hpair : checkRun cond now startTime iv tv fuel 0 = (res, tr) :=
    Except.ok.inj hrun
  have hres : (checkRun cond now startTime iv tv fuel 0).1 = res := by rw [hpair]
  have hnp : (checkRun cond now startTime iv tv fuel 0).1 ≠ .pending := by
    rw [hres]; exact hsettled
  rcases checkRun_cases cond now startTime iv tv fuel 0 hnp with
    ⟨h1, k, hk⟩ | ⟨h1, k, hk⟩ | ⟨k, e, hk, h1⟩
  · exact Or.inl ⟨by rw [← hres, h1], k, hk⟩
  · refine Or.inr ⟨?_, k, hk⟩
    rw [← hres, h1]
    simp [TimeoutError.make]
  · exact absurd hk (hnoerr k e)

/-- Witness for C1: with an always-true predicate and default options the
run fulfills on the first check. -/
theorem until_fulfills_or_times_out_witness :
    (PollResult.resolved = PollResult.resolved ∧
      ∃ k, (fun _ : ℕ => CondOutcome.ret true) k = .ret true) ∨
    (PollResult.resolved = .rejected (.timeoutError (.fin 30000)
        ("Condition not met within " ++ JSNum.render (.fin 30000) ++ "ms timeout")) ∧
      ∃ k, (fun _ : ℕ => CondOutcome.ret true) k = .ret false ∧
        (((fun _ : ℕ => JSNum.fin 0) k).sub (.fin 0)).ge (.fin 30000) = true) :=
  until_fulfills_or_times_out ⟨none, none⟩ (fun _ => .ret true)
    (fun _ => .fin 0) (.fin 0) 1 (.fin 200) (.fin 30000) .resolved
    [.invoke 0, .settle 0 (.ret true), .promiseResolve]
    (by decide) (by decide) (fun k e => by simp) (by decide) (by decide)

/-- C3: whenever the resolved interval or the resolved timeout fails the
guard `typeof d === 'number' && !(d < 0)`, `until` fails synchronously with
a thrown error: the result is `.error` uniformly in the predicate, the
clock and the fuel, so no timer is armed and the predicate is never
invoked. -/
theorem until_invalid_options_fail_sync (options : UntilOptions)
    (cond : ℕ → CondOutcome) (now : ℕ → JSNum) (startTime : JSNum) (fuel : ℕ)
    (hbad : resolveDuration (options.interval.getD DEFAULT_INTERVAL) = none ∨
      resolveDuration (options.timeout.getD DEFAULT_TIMEOUT) = none) :
    ∃ msg, «until» true options cond now startTime fuel = .error (.error msg) := by
  rcases hiv : resolveDuration (options.interval.getD DEFAULT_INTERVAL) with _ | iv
  · exact ⟨"Interval must be a non-negative number", by simp [«until», hiv]⟩
  · rcases htv : resolveDuration (options.timeout.getD DEFAULT_TIMEOUT) with _ | tv
    · exact ⟨"Timeout must be a non-negative number", by simp [«until», hiv, htv]⟩
    · rcases hbad with hb | hb
      · rw [hiv] at hb; exact absurd hb (Option.some_ne_none iv)
      · rw [htv] at hb; exact absurd hb (Option.some_ne_none tv)

/-- Witness for C3 at a negative interval. -/
theorem until_invalid_options_fail_sync_witness :
    ∃ msg, «until» true ⟨some (.num (.fin (-1))), none⟩
      (fun _ => CondOutcome.ret true) (fun _ => JSNum.fin 0) (.fin 0) 1 =
      .error (.error msg) :=
  until_invalid_options_fail_sync ⟨some (.num (.fin (-1))), none⟩
    (fun _ => .ret true) (fun _ => .fin 0) (.fin 0) 1 (Or.inl (by decide))

/-- C5: with `timeout = 0` (and a monotone clock) the predicate is checked
exactly once, no timer is ever armed, and a falsy first outcome rejects at
once with a TimeoutError whose timeout field is 0. -/
theorem until_timeout_zero_single_check (options : UntilOptions)
    (cond : ℕ → CondOutcome) (now : ℕ → JSNum) (iv : JSNum)
    (s t : ℚ) (fuel : ℕ)
    (hiv : resolveDuration (options.interval.getD DEFAULT_INTERVAL) = some iv)
    (hto : options.timeout = some (.num (.fin 0)))
    (hnow : now 0 = .fin t) (hclock : s ≤ t) :
    ∃ res tr,
      «until» true options cond now (.fin s) (fuel + 1) = .ok (res, tr) ∧
      countInvokes tr = 1 ∧ hasArmTimer tr = false ∧
      (cond 0 = .ret false →
        res = .rejected (.timeoutError (.fin 0)
          "Condition not met within 0ms timeout")) := by
  have htv : resolveDuration (options.timeout.getD DEFAULT_TIMEOUT) =
      some (.fin 0) := by
    rw [hto]; rfl
  have h0 : «until» true options cond now (.fin s) (fuel + 1) =
      .ok (checkRun cond now (.fin s) iv (.fin 0) (fuel + 1) 0) := by
    simp [«until», hiv, htv]
  rcases hc : cond 0 with b | e
  · cases b with
    | true =>
      rw [checkRun_true cond now (.fin s) iv (.fin 0) fuel hc] at h0
      exact ⟨.resolved, _, h0, by simp [countInvokes], by simp [hasArmTimer],
        fun h => by simp_all⟩
    | false =>
      have hge : ((now 0).sub (.fin s)).ge (.fin 0) = true := by
        rw [hnow, JSNum.sub_fin]
        simp only [JSNum.ge, decide_eq_true_eq, sub_nonneg]
        exact hclock
      rw [checkRun_timeout cond now (.fin s) iv (.fin 0) fuel hc hge] at h0
      exact ⟨_, _, h0, by simp [countInvokes], by simp [hasArmTimer],
        fun _ => by decide⟩
  · rw [checkRun_err cond now (.fin s) iv (.fin 0) fuel hc] at h0
    exact ⟨_, _, h0, by simp [countInvokes], by simp [hasArmTimer],
      fun h => by simp_all⟩

/-- Witness for C5: an always-false predicate under `timeout: 0`. -/
theorem until_timeout_zero_single_check_witness :
    ∃ res tr,
      «until» true ⟨none, some (.num (.fin 0))⟩ (fun _ => CondOutcome.ret false)
        (fun _ => JSNum.fin 5) (.fin 3) (0 + 1) = .ok (res, tr) ∧
      countInvokes tr = 1 ∧ hasArmTimer tr = false ∧
      ((fun _ : ℕ => CondOutcome.ret false) 0 = .ret false →
        res = .rejected (.timeoutError (.fin 0)
          "Condition not met within 0ms timeout")) :=
  until_timeout_zero_single_check ⟨none, some (.num (.fin 0))⟩
    (fun _ => .ret false) (fun _ => .fin 5) (.fin 200) 3 5 0
    (by decide) rfl rfl (by norm_num)

/-- C6: when every earlier check settles falsy before the timeout and check
`k` errors, `until` rejects with exactly that error value, whatever it is —
no wrapping, no substitution of a TimeoutError or a ValidationError, no
retry. -/
theorem until_propagates_predicate_error (options : UntilOptions)
    (cond : ℕ → CondOutcome) (now : ℕ → JSNum) (startTime : JSNum)
    (k fuel : ℕ) (iv tv : JSNum) (e : JSError)
    (hiv : resolveDuration (options.interval.getD DEFAULT_INTERVAL) = some iv)
    (htv : resolveDuration (options.timeout.getD DEFAULT_TIMEOUT) = some tv)
    (hfuel : k < fuel)
    (hbefore : ∀ j, j < k →
      cond j = .ret false ∧ ((now j).sub startTime).ge tv = false)
    (hk : cond k = .err e) :
    ∃ tr, «until» true options cond now startTime fuel = .ok (.rejected e, tr) := by
  have h0 : «until» true options cond now startTime fuel =
      .ok (checkRun cond now startTime iv tv fuel 0) := by
    simp [«until», hiv, htv]
  have h1 : (checkRun cond now startTime iv tv fuel 0).1 = .rejected e :=
    checkRun_err_reach cond now startTime iv tv fuel 0 k e (Nat.zero_le k)
      (by omega) (fun j _ hj => hbefore j hj) hk
  refine ⟨(checkRun cond now startTime iv tv fuel 0).2, ?_⟩
  rw [h0, ← h1]

/-- Witness for C6: a predicate that throws on its first check. -/
theorem until_propagates_predicate_error_witness :
    ∃ tr, «until» true ⟨none, none⟩
      (fun j => if j = 0 then CondOutcome.err (.error "boom") else .ret true)
      (fun _ => JSNum.fin 0) (.fin 0) 1 = .ok (.rejected (.error "boom"), tr) :=
  until_propagates_predicate_error ⟨none, none⟩
    (fun j => if j = 0 then .err (.error "boom") else .ret true)
    (fun _ => .fin 0) (.fin 0) 0 1 (.fin 200) (.fin 30000) (.error "boom")
    (by decide) (by decide) (by omega)
    (fun j hj => absurd hj (Nat.not_lt_zero j)) (by simp)

/-- C9: over every prefix of the trace of any `until` run, the number of
pending timers (armed, not yet fired) and the number of in-flight predicate
evaluations (invoked, not yet settled) each stay between 0 and 1: a new
check is scheduled only after the previous one settled, so checks never
overlap. -/
theorem until_single_timer_no_overlap (options : UntilOptions)
    (cond : ℕ → CondOutcome) (now : ℕ → JSNum) (startTime : JSNum)
    (fuel : ℕ) (iv tv : JSNum) (res : PollResult) (tr : List Event)
    (hiv : resolveDuration (options.interval.getD DEFAULT_INTERVAL) = some iv)
    (htv : resolveDuration (options.timeout.getD DEFAULT_TIMEOUT) = some tv)
    (hrun : «until» true options cond now startTime fuel = .ok (res, tr)) :
    prefixBounded timerDelta tr ∧ prefixBounded inFlightDelta tr := by
  have h0 : «until» true options cond now startTime fuel =
      .ok (checkRun cond now startTime iv tv fuel 0) := by
    simp [«until», hiv, htv]
  rw [h0] at hrun
  have hpair : checkRun cond now startTime iv tv fuel 0 = (res, tr) :=
    Except.ok.inj hrun
  have htr : tr = (checkRun cond now startTime iv tv fuel 0).2 := by rw [hpair]
  rw [htr]
  constructor
  · exact checkRun_prefixBounded cond now startTime iv tv timerDelta
      (fun i => by simp [timerDelta]) (fun i => by simp [timerDelta])
      (fun i o => by simp [timerDelta]) (fun i => by simp [timerDelta])
      (fun i => by simp [timerDelta]) (fun i => by simp [timerDelta])
      (by simp [timerDelta]) (fun e => by simp [timerDelta]) fuel 0
  · exact checkRun_prefixBounded cond now startTime iv tv inFlightDelta
      (fun i => by simp [inFlightDelta]) (fun i => by simp [inFlightDelta])
      (fun i o => by simp [inFlightDelta]) (fun i => by simp [inFlightDelta])
      (fun i => by simp [inFlightDelta]) (fun i => by simp [inFlightDelta])
      (by simp [inFlightDelta]) (fun e => by simp [inFlightDelta]) fuel 0

/-- Witness for C9: one falsy check with default options arms one timer. -/
theorem until_single_timer_no_overlap_witness :
    prefixBounded timerDelta
      [.invoke 0, .settle 0 (.ret false), .armTimer 0 (.fin 200), .timerFire 0] ∧
    prefixBounded inFlightDelta
      [.invoke 0, .settle 0 (.ret false), .armTimer 0 (.fin 200), .timerFire 0] :=
  until_single_timer_no_overlap ⟨none, none⟩ (fun _ => .ret false)
    (fun _ => .fin 0) (.fin 0) 1 (.fin 200) (.fin 30000) .pending
    [.invoke 0, .settle 0 (.ret false), .armTimer 0 (.fin 200), .timerFire 0]
    (by decide) (by decide) (by decide)

/-- C10: a settled `until` run settles exactly once — its trace is a
settlement-free prefix followed by one final promise-settlement event
matching the result, so after settling no predicate invocation and no timer
arming occurs — and the result is one of exactly three terminal outcomes:
fulfilled, rejected with the default TimeoutError, or rejected with an
error the predicate produced. -/
theorem until_settles_exactly_once (options : UntilOptions)
    (cond : ℕ → CondOutcome) (now : ℕ → JSNum) (startTime : JSNum)
    (fuel : ℕ) (iv tv : JSNum) (res : PollResult) (tr : List Event)
    (hiv : resolveDuration (options.interval.getD DEFAULT_INTERVAL) = some iv)
    (htv : resolveDuration (options.timeout.getD DEFAULT_TIMEOUT) = some tv)
    (hrun : «until» true options cond now startTime fuel = .ok (res, tr))
    (hsettled : res ≠ .pending) :
    (∃ tr' ev, tr = tr' ++ [ev] ∧ isPromiseSettlement ev = true ∧
      (∀ e ∈ tr', isPromiseSettlement e = false) ∧
      tr.countP isPromiseSettlement = 1 ∧
      ((res = .resolved ∧ ev = .promiseResolve) ∨
        ∃ er, res = .rejected er ∧ ev = .promiseReject er)) ∧
    (res = .resolved ∨ res = .rejected (TimeoutError.make tv none) ∨
      ∃ k er, cond k = .err er ∧ res = .rejected er) := by
  have h0 : «until» true options cond now startTime fuel =
      .ok (checkRun cond now startTime iv tv fuel 0) := by
    simp [«until», hiv, htv]
  rw [h0] at hrun
  have hpair : checkRun cond now startTime iv tv fuel 0 = (res, tr) :=
    Except.ok.inj hrun
  have hres : (checkRun cond now startTime iv tv fuel 0).1 = res := by rw [hpair]
  have htr : (checkRun cond now startTime iv tv fuel 0).2 = tr := by rw [hpair]
  have hnp : (checkRun cond now startTime iv tv fuel 0).1 ≠ .pending := by
    rw [hres]; exact hsettled
  constructor
  · obtain ⟨tr', ev, htr', hev, hfree, hmatch⟩ :=
      checkRun_settle_last cond now startTime iv tv fuel 0 hnp
    rw [htr] at htr'
    refine ⟨tr', ev, htr', hev, hfree, ?_, ?_⟩
    · have hc0 : tr'.countP isPromiseSettlement = 0 :=
        List.countP_eq_zero.2 fun a ha => by
          rw [hfree a ha]; exact Bool.false_ne_true
      rw [htr', List.countP_append, hc0]
      simp [List.countP_cons, hev]
    · rcases hmatch with ⟨h1, h2⟩ | ⟨er, h1, h2⟩
      · exact Or.inl ⟨by rw [← hres, h1], h2⟩
      · exact Or.inr ⟨er, by rw [← hres, h1], h2⟩
  · rcases checkRun_cases cond now startTime iv tv fuel 0 hnp with
      ⟨h1, _⟩ | ⟨h1, _⟩ | ⟨k, e, hk, h1⟩
    · exact Or.inl (by rw [← hres, h1])
    · exact Or.inr (Or.inl (by rw [← hres, h1]))
    · exact Or.inr (Or.inr ⟨k, e, hk, by rw [← hres, h1]⟩)

/-- Witness for C10: an always-true predicate settles on the first check. -/
theorem until_settles_exactly_once_witness :
    (∃ tr' ev,
      [Event.invoke 0, Event.settle 0 (CondOutcome.ret true),
        Event.promiseResolve] = tr' ++ [ev] ∧
      isPromiseSettlement ev = true ∧
      (∀ e ∈ tr', isPromiseSettlement e = false) ∧
      ([Event.invoke 0, Event.settle 0 (CondOutcome.ret true),
        Event.promiseResolve]).countP isPromiseSettlement = 1 ∧
      ((PollResult.resolved = PollResult.resolved ∧ ev = .promiseResolve) ∨
        ∃ er, PollResult.resolved = .rejected er ∧ ev = .promiseReject er)) ∧
    (PollResult.resolved = PollResult.resolved ∨
      PollResult.resolved = .rejected (TimeoutError.make (.fin 30000) none) ∨
      ∃ k er, (fun _ : ℕ => CondOutcome.ret true) k = .err er ∧
        PollResult.resolved = .rejected er) :=
  until_settles_exactly_once ⟨none, none⟩ (fun _ => .ret true)
    (fun _ => .fin 0) (.fin 0) 1 (.fin 200) (.fin 30000) .resolved
    [.invoke 0, .settle 0 (.ret true), .promiseResolve]
    (by decide) (by decide) (by decide) (by decide)

/-- Every error `delay` throws is the plain-Error validation message. -/
theorem delay_error_eq (v : JSVal) (e : JSError) (h : delay v = .error e) :
    e = .error "Delay must be a non-negative number" := by
  cases v <;> simp only [delay] at h <;>
    first
      | (split at h
         · exact (Except.error.inj h).symm
         · simp at h)
      | exact (Except.error.inj h).symm

/-- Every error `random` throws is a plain Error (its own three validation
messages, or the guard of the `delay` it delegates to). -/
theorem random_error_name (r : ℚ) (a b : JSVal) (e : JSError)
    (h : random r a b = .error e) : e.name = "Error" := by
  have hplain : ∀ msg, e = JSError.error msg → e.name = "Error" :=
    fun msg hm => by rw [hm]; rfl
  cases a <;> cases b <;> simp only [random] at h <;>
    first
      | (split at h
         · exact hplain _ (Except.error.inj h).symm
         · split at h
           · exact hplain _ (Except.error.inj h).symm
           · exact hplain _ (delay_error_eq _ _ h))
      | exact hplain _ (Except.error.inj h).symm

/-- Every error `until` throws synchronously is a plain Error. -/
theorem until_error_name (c : Bool) (opts : UntilOptions)
    (cond : ℕ → CondOutcome) (now : ℕ → JSNum) (st : JSNum) (fuel : ℕ)
    (e : JSError) (h : «until» c opts cond now st fuel = .error e) :
    e.name = "Error" := by
  have hplain : ∀ msg, e = JSError.error msg → e.name = "Error" :=
    fun msg hm => by rw [hm]; rfl
  cases c with
  | false =>
    simp only [«until», Bool.not_false, if_true] at h
    exact hplain _ (Except.error.inj h).symm
  | true =>
    simp only [«until», Bool.not_true] at h
    rcases hiv : resolveDuration (opts.interval.getD DEFAULT_INTERVAL) with _ | iv
    · rw [hiv] at h
      simp only [if_false, Bool.false_eq_true, ite_false] at h
      exact hplain _ (Except.error.inj h).symm
    · rw [hiv] at h
      rcases htv : resolveDuration (opts.timeout.getD DEFAULT_TIMEOUT) with _ | tv
      · rw [htv] at h
        simp only [if_false, Bool.false_eq_true, ite_false] at h
        exact hplain _ (Except.error.inj h).symm
      · rw [htv] at h
        simp at h

/-- C2 counterexample: a validation failure of waitUntil (non-callable
predicate) is thrown as a plain `Error`, whose class name is not
ValidationError — refuting that every validation failure is a
ValidationError-class condition. -/
theorem until_validation_not_validationError_cex :
    «until» false ⟨none, none⟩ (fun _ => CondOutcome.ret true)
        (fun _ => JSNum.fin 0) (.fin 0) 1 =
      .error (.error "Condition must be a function") ∧
    (JSError.error "Condition must be a function").name ≠ "ValidationError" :=
  ⟨by decide, by decide⟩

/-- C2 amended: every validation failure of wait, waitRandom and waitUntil
is thrown as a plain Error-class condition (name `Error`); the exported
ValidationError class is never used by the three operations.  Timeout
failures are TimeoutError-class (name `TimeoutError`), so the two failure
kinds remain distinguishable by type after being caught. -/
theorem validation_failures_plain_error :
    (∀ (v : JSVal) (e : JSError), delay v = .error e → e.name = "Error") ∧
    (∀ (r : ℚ) (a b : JSVal) (e : JSError),
      random r a b = .error e → e.name = "Error") ∧
    (∀ (c : Bool) (opts : UntilOptions) (cond : ℕ → CondOutcome)
      (now : ℕ → JSNum) (st : JSNum) (fuel : ℕ) (e : JSError),
      «until» c opts cond now st fuel = .error e → e.name = "Error") ∧
    (∀ (t : JSNum) (m : String), (JSError.timeoutError t m).name ≠ "Error") :=
  ⟨fun v e h => by rw [delay_error_eq v e h]; rfl,
   random_error_name, until_error_name,
   fun t m => by simp [JSError.name]⟩

/-- Witness for the amended C2 at one concrete failure of each operation. -/
theorem validation_failures_plain_error_witness :
    (JSError.error "Delay must be a non-negative number").name = "Error" ∧
    (JSError.error "Both min and max must be numbers").name = "Error" ∧
    (JSError.error "Condition must be a function").name = "Error" ∧
    (JSError.timeoutError (.fin 100) "m").name ≠ "Error" :=
  ⟨validation_failures_plain_error.1 (.num (.fin (-1)))
      (.error "Delay must be a non-negative number") (by decide),
   validation_failures_plain_error.2.1 0 .undef .undef
      (.error "Both min and max must be numbers") (by decide),
   validation_failures_plain_error.2.2.1 false ⟨none, none⟩
      (fun _ => .ret true) (fun _ => .fin 0) (.fin 0) 1
      (.error "Condition must be a function") (by decide),
   validation_failures_plain_error.2.2.2 (.fin 100) "m"⟩

/-- C4 counterexample: Infinity is not a finite number ≥ 0, yet `wait`
accepts it and arms a timer instead of failing — refuting that wait fails
exactly when the input is not a finite number ≥ 0. -/
theorem delay_accepts_infinity_cex :
    delay (.num .posInf) = .ok ⟨.posInf⟩ ∧
    specFiniteNonNeg (.num .posInf) = false :=
  ⟨by decide, by decide⟩

/-- C4 amended: wait fails synchronously exactly when the guard
`typeof ms !== 'number' || ms < 0` holds — so NaN and Infinity are
accepted, not only finite values — and every accepted number arms the
single-shot timer for that value, whose promise fulfills with no value. -/
theorem delay_fails_iff_not_nonneg (v : JSVal) :
    (delay v = .error (.error "Delay must be a non-negative number") ↔
      isNonNegNumber v = false) ∧
    (∀ x : JSNum, v = .num x → isNonNegNumber v = true → delay v = .ok ⟨x⟩) := by
  constructor
  · constructor
    · intro h
      cases v with
      | num x =>
        simp only [delay] at h
        split at h
        · next hx => simp [isNonNegNumber, hx]
        · simp at h
      | str s => simp [isNonNegNumber]
      | boolean b => simp [isNonNegNumber]
      | nullVal => simp [isNonNegNumber]
      | undef => simp [isNonNegNumber]
      | func => simp [isNonNegNumber]
      | obj => simp [isNonNegNumber]
    · intro h
      cases v with
      | num x =>
        simp only [isNonNegNumber, Bool.not_eq_false'] at h
        simp [delay, h]
      | str s => simp [delay]
      | boolean b => simp [delay]
      | nullVal => simp [delay]
      | undef => simp [delay]
      | func => simp [delay]
      | obj => simp [delay]
  · intro x hv hnn
    subst hv
    simp only [isNonNegNumber, Bool.not_eq_true'] at hnn
    simp [delay, hnn]

/-- Witness for the amended C4: 5 is accepted, a string fails the guard. -/
theorem delay_fails_iff_not_nonneg_witness :
    delay (.num (.fin 5)) = .ok ⟨.fin 5⟩ ∧
    (delay (.str "100") = .error (.error "Delay must be a non-negative number") ↔
      isNonNegNumber (.str "100") = false) :=
  ⟨(delay_fails_iff_not_nonneg (.num (.fin 5))).2 (.fin 5) rfl (by decide),
   (delay_fails_iff_not_nonneg (.str "100")).1⟩

/-- C8: waitRandom validates in source order — the type of both bounds
first, then non-negativity of both, then ordering — and the first violated
check determines the failure message. -/
theorem random_validation_order (r : ℚ) (a b : JSVal) (x y : JSNum) :
    (isNumberType a = false ∨ isNumberType b = false →
      random r a b = .error (.error "Both min and max must be numbers")) ∧
    (a = .num x → b = .num y →
      x.lt (.fin 0) = true ∨ y.lt (.fin 0) = true →
      random r a b =
        .error (.error "Both min and max must be non-negative numbers")) ∧
    (a = .num x → b = .num y →
      x.lt (.fin 0) = false → y.lt (.fin 0) = false → x.gt y = true →
      random r a b =
        .error (.error "min must be less than or equal to max")) := by
  refine ⟨?_, ?_, ?_⟩
  · intro hab
    cases a <;> cases b <;> simp_all [random, isNumberType]
  · intro ha hb hneg
    subst ha; subst hb
    rcases hneg with h | h <;> simp [random, h]
  · intro ha hb hx hy hgt
    subst ha; subst hb
    simp [random, hx, hy, hgt]

/-- Witness for C8: one concrete failure of each of the three checks, in
order. -/
theorem random_validation_order_witness :
    random 0 .undef (.num (.fin 1)) =
      .error (.error "Both min and max must be numbers") ∧
    random 0 (.num (.fin (-1))) (.num (.fin 1)) =
      .error (.error "Both min and max must be non-negative numbers") ∧
    random 0 (.num (.fin 2)) (.num (.fin 1)) =
      .error (.error "min must be less than or equal to max") :=
  ⟨(random_validation_order 0 .undef (.num (.fin 1)) (.fin 0) (.fin 0)).1
      (Or.inl (by decide)),
   (random_validation_order 0 (.num (.fin (-1))) (.num (.fin 1))
      (.fin (-1)) (.fin 1)).2.1 rfl rfl (Or.inl (by decide)),
   (random_validation_order 0 (.num (.fin 2)) (.num (.fin 1))
      (.fin 2) (.fin 1)).2.2 rfl rfl (by decide) (by decide) (by decide)⟩

/-- C7 counterexample: with min = 0 and max = 1/2 (so 0 ≤ min ≤ max) and
the draw r = 9/10 ∈ [0,1), waitRandom delegates duration 1 to wait — and 1
exceeds max, refuting min ≤ d ≤ max as stated over all numeric bounds. -/
theorem random_duration_exceeds_max_cex :
    (0:ℚ) ≤ 0 ∧ (0:ℚ) ≤ mkRat 1 2 ∧
    (0:ℚ) ≤ mkRat 9 10 ∧ mkRat 9 10 < 1 ∧
    random (mkRat 9 10) (.num (.fin 0)) (.num (.fin (mkRat 1 2))) =
      .ok ⟨.fin 1⟩ ∧
    ¬((1:ℚ) ≤ mkRat 1 2) :=
  ⟨by decide, by decide, by decide, by decide, by decide, by decide⟩

/-- C7 amended: for integer bounds 0 ≤ min ≤ max and every draw r ∈ [0,1),
waitRandom delegates to wait with the single integer duration
d = ⌊r·(max−min+1)⌋ + min; d satisfies min ≤ d ≤ max, equals a given k in
the range exactly when r·(max−min+1) lies in [k−min, k−min+1) — preimage
intervals of equal length, so a uniform draw yields a uniform duration —
and equals min exactly when min = max. -/
theorem random_integer_bounds_uniform (m M : ℕ) (r : ℚ)
    (hmM : m ≤ M) (hr0 : 0 ≤ r) (hr1 : r < 1) :
    ∃ d : ℤ,
      random r (.num (.fin (m:ℚ))) (.num (.fin (M:ℚ))) =
        delay (.num (.fin (d:ℚ))) ∧
      random r (.num (.fin (m:ℚ))) (.num (.fin (M:ℚ))) = .ok ⟨.fin (d:ℚ)⟩ ∧
      (m:ℤ) ≤ d ∧ d ≤ (M:ℤ) ∧
      (∀ k : ℤ, d = k ↔
        ((k:ℚ) - m ≤ r * ((M:ℚ) - m + 1) ∧
          r * ((M:ℚ) - m + 1) < (k:ℚ) - m + 1)) ∧
      (m = M → d = m) := by
  have hmq : (0:ℚ) ≤ (m:ℚ) := Nat.cast_nonneg m
  have hMq : (m:ℚ) ≤ (M:ℚ) := Nat.cast_le.2 hmM
  have hnpos : (0:ℚ) < (M:ℚ) - m + 1 := by linarith
  have hlm : (JSNum.fin (m:ℚ)).lt (.fin 0) = false := by
    simp only [JSNum.lt, decide_eq_false_iff_not, not_lt]
    exact hmq
  have hlM : (JSNum.fin (M:ℚ)).lt (.fin 0) = false := by
    simp only [JSNum.lt, decide_eq_false_iff_not, not_lt]
    linarith
  have hgt : (JSNum.fin (m:ℚ)).gt (.fin (M:ℚ)) = false := by
    simp only [JSNum.gt, JSNum.lt, decide_eq_false_iff_not, not_lt]
    exact hMq
  have hrn0 : (0:ℚ) ≤ r * ((M:ℚ) - m + 1) := mul_nonneg hr0 (le_of_lt hnpos)
  have hfl0 : (0:ℤ) ≤ ⌊r * ((M:ℚ) - m + 1)⌋ := Int.floor_nonneg.2 hrn0
  have hflq : (0:ℚ) ≤ ((⌊r * ((M:ℚ) - m + 1)⌋ : ℤ) : ℚ) := by exact_mod_cast hfl0
  have hup : ⌊r * ((M:ℚ) - m + 1)⌋ ≤ (M:ℤ) - (m:ℤ) := by
    have hlt : r * ((M:ℚ) - m + 1) < (((M:ℤ) - (m:ℤ) + 1 : ℤ) : ℚ) := by
      have h3 := mul_lt_mul_of_pos_right hr1 hnpos
      push_cast
      linarith
    have h2 := Int.floor_lt.2 hlt
    omega
  have hval : random r (.num (.fin (m:ℚ))) (.num (.fin (M:ℚ))) =
      delay (.num (.fin (((⌊r * ((M:ℚ) - m + 1)⌋ : ℤ) : ℚ) + m))) := by
    simp only [random, hlm, hlM, hgt, Bool.or_self, Bool.false_eq_true,
      if_false]
    rw [JSNum.sub_fin, JSNum.add_fin, JSNum.mul_fin, JSNum.floor_fin,
      JSNum.add_fin]
  have hdel : delay (.num (.fin (((⌊r * ((M:ℚ) - m + 1)⌋ : ℤ) : ℚ) + m))) =
      .ok ⟨.fin (((⌊r * ((M:ℚ) - m + 1)⌋ : ℤ) : ℚ) + m)⟩ := by
    have hlt : (JSNum.fin (((⌊r * ((M:ℚ) - m + 1)⌋ : ℤ) : ℚ) + m)).lt
        (.fin 0) = false := by
      simp only [JSNum.lt, decide_eq_false_iff_not, not_lt]
      linarith
    simp only [delay, hlt, Bool.false_eq_true, if_false]
  have hcast : ((⌊r * ((M:ℚ) - m + 1)⌋ + (m:ℤ) : ℤ) : ℚ) =
      ((⌊r * ((M:ℚ) - m + 1)⌋ : ℤ) : ℚ) + m := by push_cast; ring
  refine ⟨⌊r * ((M:ℚ) - m + 1)⌋ + m, ?_, ?_, ?_, ?_, ?_, ?_⟩
  · rw [hval, hcast]
  · rw [hval, hdel, hcast]
  · omega
  · omega
  · intro k
    have h1 : (⌊r * ((M:ℚ) - m + 1)⌋ + (m:ℤ) = k) ↔
        ⌊r * ((M:ℚ) - m + 1)⌋ = k - (m:ℤ) := by omega
    rw [h1, Int.floor_eq_iff]
    push_cast
    constructor
    · rintro ⟨u, v⟩
      exact ⟨by linarith, by linarith⟩
    · rintro ⟨u, v⟩
      exact ⟨by linarith, by linarith⟩
  · intro h
    subst h
    have hlt1 : r * ((m:ℚ) - m + 1) < (((1:ℤ)) : ℚ) := by
      have he : ((m:ℚ) - m + 1) = 1 := by ring
      rw [he, mul_one]
      exact_mod_cast hr1
    have h2 := Int.floor_lt.2 hlt1
    omega

/-- Witness for the amended C7 at min = 2, max = 4, draw 1/2. -/
theorem random_integer_bounds_uniform_witness :
    ∃ d : ℤ,
      random (mkRat 1 2) (.num (.fin ((2:ℕ):ℚ))) (.num (.fin ((4:ℕ):ℚ))) =
        delay (.num (.fin (d:ℚ))) ∧
      random (mkRat 1 2) (.num (.fin ((2:ℕ):ℚ))) (.num (.fin ((4:ℕ):ℚ))) =
        .ok ⟨.fin (d:ℚ)⟩ ∧
      ((2:ℕ):ℤ) ≤ d ∧ d ≤ ((4:ℕ):ℤ) ∧
      (∀ k : ℤ, d = k ↔
        ((k:ℚ) - (2:ℕ) ≤ mkRat 1 2 * (((4:ℕ):ℚ) - (2:ℕ) + 1) ∧
          mkRat 1 2 * (((4:ℕ):ℚ) - (2:ℕ) + 1) < (k:ℚ) - (2:ℕ) + 1)) ∧
      ((2:ℕ) = (4:ℕ) → d = (2:ℕ)) :=
  random_integer_bounds_uniform 2 4 (mkRat 1 2)
    (by norm_num) (by norm_num [mkRat]) (by norm_num [mkRat])

end DecaDelay
